import Mathlib

/-!
Verification of the `raffle` vouching/checking library.

The Rust source (src/generate.rs, src/check.rs, src/vouch.rs,
src/constparse.rs) is shallowly embedded below: 64-bit machine integers
become `ℕ` together with explicit wrapping operations modulo `2 ^ 64`,
byte slices become `List ℕ`, and functions whose internal assertions can
abort become `Option`-valued functions that return `none` exactly when the
corresponding assertion would fire.  The serialization routines, which are
not part of the given sources, are modelled from the spec and marked as
such.  Definitions come first, followed by the lemmas and the claim
theorems.
-/

set_option maxRecDepth 4000

namespace Raffle

/-- The modulus of 64-bit wrapping arithmetic. -/
def M : ℕ := 2 ^ 64

instance : NeZero M := ⟨by decide⟩

/-- `WANTED_SUM` from src/check.rs (the ASCII string `Vouch!OK` read as a
little-endian u64). -/
def WANTED_SUM : ℕ := 0x4b4f216863756f56

/-- `CHECKING_TAG` from src/check.rs (`Checking` as little-endian u64). -/
def CHECKING_TAG : ℕ := 0x676e696b63656843

/-- `VOUCHING_TAG` from src/vouch.rs (`Vouching` as little-endian u64). -/
def VOUCHING_TAG : ℕ := 0x676e696863756f56

/-- `u64::wrapping_add`. -/
def wadd (a b : ℕ) : ℕ := (a + b) % M

/-- `u64::wrapping_mul`. -/
def wmul (a b : ℕ) : ℕ := (a * b) % M

/-- `u64::wrapping_sub` (on representatives below `M` this is
`(a + (M - b)) % M`). -/
def wsub (a b : ℕ) : ℕ := (a + (M - b % M)) % M

/-- `u64::wrapping_neg`. -/
def wneg (a : ℕ) : ℕ := (M - a % M) % M

/-- One Newton iteration `x ← x * (2 - a * x)` of `modinverse`
(src/generate.rs line 11, repeated four times). -/
def newton (a x : ℕ) : ℕ := wmul x (wsub 2 (wmul a x))

/-- The seed `x0 = a * 3 XOR 2` followed by the four Newton iterations of
`modinverse` (src/generate.rs lines 8-14). -/
def modinv_chain (a : ℕ) : ℕ :=
  newton a (newton a (newton a (newton a (wmul a 3 ^^^ 2))))

/-- `modinverse` from src/generate.rs: forces the argument odd, runs the
Newton chain, and asserts `a.wrapping_mul(x) == 1`; the assertion firing is
modelled as `none`. -/
def modinverse (a0 : ℕ) : Option ℕ :=
  let a := a0 ||| 1
  let x := modinv_chain a
  if wmul a x = 1 then some x else none

/-- `check` from src/check.rs lines 19-25. -/
def check (unoffset unscale expected voucher : ℕ) : Bool :=
  wadd (wmul (wadd voucher unoffset) (unscale ^^^ CHECKING_TAG)) expected == WANTED_SUM

/-- `vouch` from src/vouch.rs lines 13-24; its internal
`assert!(check ...)` firing is modelled as `none`. -/
def vouch (offset scale : ℕ) (checking : ℕ × ℕ) (value : ℕ) : Option ℕ :=
  let ret := wmul (wadd value offset) (scale ^^^ VOUCHING_TAG)
  if check checking.1 checking.2 value ret then some ret else none

/-- `check_parameters_or_die` from src/generate.rs lines 30-39: the four
sample-point vouches; `true` means none of their internal assertions fire. -/
def check_parameters_or_die (offset scale : ℕ) (checking : ℕ × ℕ) : Bool :=
  (vouch offset scale checking 0).isSome &&
  (vouch offset scale checking 1).isSome &&
  (vouch offset scale checking 2).isSome &&
  (vouch offset scale checking 0x110d2ae90b38f555).isSome

/-- The pure value computed by `derive_parameters` (src/generate.rs lines
48-72) before its self-check. -/
def derivedQuad (scale unoffset : ℕ) : ℕ × ℕ × ℕ × ℕ :=
  let s := scale ||| 1
  let unscale := wneg (modinv_chain s)
  let offset := wsub (wmul unscale unoffset) WANTED_SUM
  (offset, s ^^^ VOUCHING_TAG, unoffset, unscale ^^^ CHECKING_TAG)

/-- `derive_parameters` from src/generate.rs lines 48-72; `none` models the
abort of `modinverse`'s assertion or of `check_parameters_or_die`. -/
def derive_parameters (scale unoffset : ℕ) : Option (ℕ × ℕ × ℕ × ℕ) :=
  let s := scale ||| 1
  match modinverse s with
  | none => none
  | some inv =>
    let unscale := wneg inv
    let offset := wsub (wmul unscale unoffset) WANTED_SUM
    let sTagged := s ^^^ VOUCHING_TAG
    let unscaleTagged := unscale ^^^ CHECKING_TAG
    if check_parameters_or_die offset sTagged (unoffset, unscaleTagged) then
      some (offset, sTagged, unoffset, unscaleTagged)
    else none

/-- The digit classification inside `update` (src/constparse.rs lines
23-28): ASCII ranges `0-9`, `a-f`, `A-F`. -/
def hex_digit (byte : ℕ) : Option ℕ :=
  if 48 ≤ byte ∧ byte ≤ 57 then some (byte - 48)
  else if 97 ≤ byte ∧ byte ≤ 102 then some (10 + (byte - 97))
  else if 65 ≤ byte ∧ byte ≤ 70 then some (10 + (byte - 65))
  else none

/-- The nested `update` helper of `parse_hex` (src/constparse.rs lines
16-33).  `wrapping_shl(4 * (15 - idx))` is `* 2 ^ (4 * (15 - idx))`, since
every call uses `idx ≤ 15` and the shift count stays below 64. -/
def update (acc : Option ℕ) (bytes : List ℕ) (base idx : ℕ) : Option ℕ :=
  if bytes.length ≤ base ∨ bytes.length - base ≤ idx then none
  else
    match acc with
    | none => none
    | some a =>
      match hex_digit (bytes.getD (base + idx) 0) with
      | none => none
      | some digit => some (a + digit * 2 ^ (4 * (15 - idx)))

/-- The chain of `update` calls of `parse_hex` with `idx = 0, …, n - 1`. -/
def updates (bytes : List ℕ) (base : ℕ) : ℕ → Option ℕ
  | 0 => some 0
  | n + 1 => update (updates bytes base n) bytes base n

/-- `parse_hex` (src/constparse.rs lines 15-54): the sixteen sequential
`update` steps applied to the accumulator `Some(0)`. -/
def parse_hex (bytes : List ℕ) (base : ℕ) : Option ℕ := updates bytes base 16

/-- The value accumulated by a successful `update` chain: the big-endian
composition of the nibbles. -/
def hexVal (bytes : List ℕ) (base n : ℕ) : ℕ :=
  ∑ i ∈ Finset.range n, (hex_digit (bytes.getD (base + i) 0)).getD 0 * 2 ^ (4 * (15 - i))

/-- `REPRESENTATION_BYTE_COUNT` of src/check.rs. -/
def CHECK_REPRESENTATION_BYTE_COUNT : ℕ := 39

/-- `parse_bytes` from src/check.rs lines 32-70 (serialised
`CheckingParameters`).  ASCII constants: `C`=67 `H`=72 `E`=69 `K`=75
`-`=45. -/
def check_parse_bytes (bytes : List ℕ) : Except String (ℕ × ℕ) :=
  if bytes.length < CHECK_REPRESENTATION_BYTE_COUNT then
    Except.error "Too few bytes in serialized raffle::CheckingParameters"
  else if bytes.length > CHECK_REPRESENTATION_BYTE_COUNT then
    Except.error "Too many bytes in serialized raffle::CheckingParameters"
  else if ¬ (bytes.getD 0 0 = 67 ∧ bytes.getD 1 0 = 72 ∧ bytes.getD 2 0 = 69 ∧
      bytes.getD 3 0 = 67 ∧ bytes.getD 4 0 = 75 ∧ bytes.getD 5 0 = 45) then
    Except.error "Incorrect prefix for raffle::CheckingParameters. Expected CHECK-"
  else
    match parse_hex bytes 6 with
    | none => Except.error "Failed to parse hex unoffset in raffle::CheckingParameters."
    | some unoffset =>
      if bytes.getD 22 0 ≠ 45 then
        Except.error "Missing dash separator after unoffset in raffle::CheckingParameters"
      else
        match parse_hex bytes 23 with
        | none => Except.error "Failed to parse hex uscale in raffle::CheckingParameters."
        | some unscale => Except.ok (unoffset, unscale)

/-- `REPRESENTATION_BYTE_COUNT` of src/vouch.rs. -/
def VOUCH_REPRESENTATION_BYTE_COUNT : ℕ := 73

/-- `parse_bytes` from src/vouch.rs lines 28-88 (serialised
`VouchingParameters`).  ASCII constants: `V`=86 `O`=79 `U`=85 `C`=67
`H`=72 `-`=45. -/
def vouch_parse_bytes (bytes : List ℕ) : Except String (ℕ × ℕ × ℕ × ℕ) :=
  if bytes.length < VOUCH_REPRESENTATION_BYTE_COUNT then
    Except.error "Too few bytes in serialized raffle::VouchingParameters"
  else if bytes.length > VOUCH_REPRESENTATION_BYTE_COUNT then
    Except.error "Too many bytes in serialized raffle::VouchingParameters"
  else if ¬ (bytes.getD 0 0 = 86 ∧ bytes.getD 1 0 = 79 ∧ bytes.getD 2 0 = 85 ∧
      bytes.getD 3 0 = 67 ∧ bytes.getD 4 0 = 72 ∧ bytes.getD 5 0 = 45) then
    Except.error "Incorrect prefix for serialized raffle::VouchingParameters. Expected VOUCH-"
  else
    match parse_hex bytes 6 with
    | none =>
      Except.error "Failed to parse hex offset in serialized raffle::VouchingParameters."
    | some offset =>
      if bytes.getD 22 0 ≠ 45 then
        Except.error "Missing dash separator after offset in serialized raffle::VouchingParameters"
      else
        match parse_hex bytes 23 with
        | none =>
          Except.error "Failed to parse hex scale in serialized raffle::VouchingParameters."
        | some scale =>
          if bytes.getD 39 0 ≠ 45 then
            Except.error "Missing dash separator after scale in serialized raffle::VouchingParameters"
          else
            match parse_hex bytes 40 with
            | none =>
              Except.error "Failed to parse hex unoffset in serialized raffle::VouchingParameters."
            | some unoffset =>
              if bytes.getD 56 0 ≠ 45 then
                Except.error "Missing dash separator after unoffset in serialized raffle::VouchingParameters"
              else
                match parse_hex bytes 57 with
                | none =>
                  Except.error "Failed to parse hex unscale in serialized raffle::VouchingParameters."
                | some unscale => Except.ok (offset, scale, unoffset, unscale)

/-- A byte is an ASCII hex digit `0-9`, `a-f` or `A-F` (spec §4.5). -/
def isHexByte (b : ℕ) : Prop :=
  (48 ≤ b ∧ b ≤ 57) ∨ (97 ≤ b ∧ b ≤ 102) ∨ (65 ≤ b ∧ b ≤ 70)

instance (b : ℕ) : Decidable (isHexByte b) := by
  unfold isHexByte
  infer_instance

/-- Value of an ASCII hex digit (spec-side). -/
def hexDigitVal (b : ℕ) : ℕ :=
  if 48 ≤ b ∧ b ≤ 57 then b - 48
  else if 97 ≤ b ∧ b ≤ 102 then b - 87
  else b - 55

/-- The big-endian 16-nibble value of the hex field at `[base, base + 16)`
(spec §4.5: hex decoding is big-endian, fixed to 16 nibbles per field). -/
def bigEndianVal (bytes : List ℕ) (base : ℕ) : ℕ :=
  ∑ i ∈ Finset.range 16, hexDigitVal (bytes.getD (base + i) 0) * 16 ^ (15 - i)

/-- The shape the claim describes for a serialised `CheckingParameters`
string: exactly 39 bytes, `CHECK-`, 16 hex digits, `-`, 16 hex digits. -/
def checkingWellFormed (bytes : List ℕ) : Prop :=
  bytes.length = 39 ∧
  (bytes.getD 0 0 = 67 ∧ bytes.getD 1 0 = 72 ∧ bytes.getD 2 0 = 69 ∧
    bytes.getD 3 0 = 67 ∧ bytes.getD 4 0 = 75 ∧ bytes.getD 5 0 = 45) ∧
  bytes.getD 22 0 = 45 ∧
  (∀ i < 16, isHexByte (bytes.getD (6 + i) 0)) ∧
  (∀ i < 16, isHexByte (bytes.getD (23 + i) 0))

/-- The shape the claim describes for a serialised `VouchingParameters`
string: exactly 73 bytes, `VOUCH-`, then four dash-separated 16-hex-digit
fields. -/
def vouchingWellFormed (bytes : List ℕ) : Prop :=
  bytes.length = 73 ∧
  (bytes.getD 0 0 = 86 ∧ bytes.getD 1 0 = 79 ∧ bytes.getD 2 0 = 85 ∧
    bytes.getD 3 0 = 67 ∧ bytes.getD 4 0 = 72 ∧ bytes.getD 5 0 = 45) ∧
  bytes.getD 22 0 = 45 ∧ bytes.getD 39 0 = 45 ∧ bytes.getD 56 0 = 45 ∧
  (∀ i < 16, isHexByte (bytes.getD (6 + i) 0)) ∧
  (∀ i < 16, isHexByte (bytes.getD (23 + i) 0)) ∧
  (∀ i < 16, isHexByte (bytes.getD (40 + i) 0)) ∧
  (∀ i < 16, isHexByte (bytes.getD (57 + i) 0))

/-- Byte view of an ASCII string literal, for concrete test vectors. -/
def strBytes (s : String) : List ℕ := s.data.map Char.toNat

instance {ε α : Type} [DecidableEq ε] [DecidableEq α] : DecidableEq (Except ε α) :=
  fun x y =>
    match x, y with
    | .ok a, .ok b =>
      if h : a = b then .isTrue (by rw [h]) else .isFalse (fun hc => h (Except.ok.inj hc))
    | .error e, .error f =>
      if h : e = f then .isTrue (by rw [h]) else .isFalse (fun hc => h (Except.error.inj hc))
    | .ok _, .error _ => .isFalse (fun hc => Except.noConfusion hc)
    | .error _, .ok _ => .isFalse (fun hc => Except.noConfusion hc)

/-- The checking transform exactly as the claim words it: de-tag, then
`(voucher + unoffset) * unscale + expected == WANTED_SUM` with every
addition and multiplication wrapping modulo `2 ^ 64`. -/
def check_spec (unoffset unscale_tagged expected voucher : ℕ) : Bool :=
  let unscale := unscale_tagged ^^^ CHECKING_TAG
  let unvouched := (voucher + unoffset) % 2 ^ 64 * unscale % 2 ^ 64
  decide ((unvouched + expected) % 2 ^ 64 = WANTED_SUM)

/-- Modelled from the spec: the lowercase ASCII hex digit of a nibble
(spec §4.5, serialization "always emits exactly 16 lowercase … hex digits
per field with leading zeros"); the `Display` implementations of the
repository are not part of src/. -/
def toHexDigit (n : ℕ) : ℕ := if n < 10 then 48 + n else 87 + n

/-- Modelled from the spec: the 16 zero-padded big-endian lowercase hex
digits of a 64-bit field. -/
def toHex16 (v : ℕ) : List ℕ :=
  (List.range 16).map (fun i => toHexDigit (v / 16 ^ (15 - i) % 16))

/-- Modelled from the spec: serialization of `CheckingParameters`,
`CHECK-` + hex `unoffset` + `-` + hex `unscale` (spec §4.5). -/
def serializeChecking (unoffset unscale : ℕ) : List ℕ :=
  [67, 72, 69, 67, 75, 45] ++ toHex16 unoffset ++ [45] ++ toHex16 unscale

/-- Modelled from the spec: serialization of `VouchingParameters`,
`VOUCH-` + four dash-separated hex fields (spec §4.5). -/
def serializeVouching (offset scale unoffset unscale : ℕ) : List ℕ :=
  [86, 79, 85, 67, 72, 45] ++ toHex16 offset ++ [45] ++ toHex16 scale ++ [45] ++
    toHex16 unoffset ++ [45] ++ toHex16 unscale

/-! ### Lemmas and claim theorems -/

lemma M_pos : 0 < M := by decide

lemma wadd_lt (a b : ℕ) : wadd a b < M := Nat.mod_lt _ M_pos

lemma wmul_lt (a b : ℕ) : wmul a b < M := Nat.mod_lt _ M_pos

lemma wsub_lt (a b : ℕ) : wsub a b < M := Nat.mod_lt _ M_pos

lemma wneg_lt (a : ℕ) : wneg a < M := Nat.mod_lt _ M_pos

lemma WANTED_SUM_lt : WANTED_SUM < M := by decide

/-- Nat values below the modulus that agree in `ZMod M` are equal. -/
lemma eq_of_zmodCast_eq {a b : ℕ} (ha : a < M) (hb : b < M)
    (h : (a : ZMod M) = (b : ZMod M)) : a = b := by
  have := congrArg ZMod.val h
  rwa [ZMod.val_cast_of_lt ha, ZMod.val_cast_of_lt hb] at this

lemma zc_wadd (a b : ℕ) : ((wadd a b : ℕ) : ZMod M) = (a : ZMod M) + b := by
  unfold wadd
  rw [ZMod.natCast_mod]
  push_cast
  ring

lemma zc_wmul (a b : ℕ) : ((wmul a b : ℕ) : ZMod M) = (a : ZMod M) * b := by
  unfold wmul
  rw [ZMod.natCast_mod]
  push_cast
  ring

lemma zc_wsub (a b : ℕ) : ((wsub a b : ℕ) : ZMod M) = (a : ZMod M) - b := by
  unfold wsub
  rw [ZMod.natCast_mod]
  have hb : b % M ≤ M := (Nat.mod_lt _ M_pos).le
  push_cast [Nat.cast_sub hb]
  rw [ZMod.natCast_self, ZMod.natCast_mod]
  ring

lemma zc_wneg (a : ℕ) : ((wneg a : ℕ) : ZMod M) = -(a : ZMod M) := by
  unfold wneg
  rw [ZMod.natCast_mod]
  have ha : a % M ≤ M := (Nat.mod_lt _ M_pos).le
  push_cast [Nat.cast_sub ha]
  rw [ZMod.natCast_self, ZMod.natCast_mod]
  ring

lemma xor_mod_two_pow (x y n : ℕ) :
    (x ^^^ y) % 2 ^ n = x % 2 ^ n ^^^ y % 2 ^ n := by
  apply Nat.eq_of_testBit_eq
  intro i
  simp only [Nat.testBit_mod_two_pow, Nat.testBit_xor]
  by_cases h : i < n <;> simp [h]

lemma xor_cancel_r (a b : ℕ) : a ^^^ b ^^^ b = a := by
  rw [Nat.xor_assoc, Nat.xor_self, Nat.xor_zero]

lemma or_one_mod_two (a : ℕ) : (a ||| 1) % 2 = 1 := by
  have h : (a ||| 1).testBit 0 = true := by
    simp [Nat.testBit_or]
  simp only [Nat.testBit_zero, decide_eq_true_eq] at h
  exact h

lemma or_one_of_odd {a : ℕ} (h : a % 2 = 1) : a ||| 1 = a := by
  apply Nat.eq_of_testBit_eq
  intro i
  rw [Nat.testBit_or]
  cases i with
  | zero => simp [Nat.testBit_zero, h]
  | succ i => simp [Nat.testBit_succ]

lemma or_one_idem (a : ℕ) : (a ||| 1) ||| 1 = a ||| 1 :=
  or_one_of_odd (or_one_mod_two a)

lemma int_mod_modEq (a : ℕ) : ((a % M : ℕ) : ℤ) ≡ (a : ℤ) [ZMOD (M : ℤ)] := by
  rw [Int.natCast_mod]
  exact Int.emod_emod_of_dvd _ dvd_rfl

lemma wmul_modEq_int (a b : ℕ) :
    ((wmul a b : ℕ) : ℤ) ≡ (a : ℤ) * b [ZMOD (M : ℤ)] := by
  unfold wmul
  calc ((a * b % M : ℕ) : ℤ) ≡ ((a * b : ℕ) : ℤ) [ZMOD (M : ℤ)] := int_mod_modEq _
    _ = (a : ℤ) * b := by push_cast; ring

lemma wsub_modEq_int (a b : ℕ) :
    ((wsub a b : ℕ) : ℤ) ≡ (a : ℤ) - b [ZMOD (M : ℤ)] := by
  unfold wsub
  have hb : b % M ≤ M := (Nat.mod_lt _ M_pos).le
  calc ((a + (M - b % M)) % M : ℕ) ≡ (((a + (M - b % M) : ℕ) : ℤ)) [ZMOD (M : ℤ)] :=
        int_mod_modEq _
    _ = (a : ℤ) + ((M : ℤ) - ((b % M : ℕ) : ℤ)) := by push_cast [Nat.cast_sub hb]; ring
    _ ≡ (a : ℤ) + ((0 : ℤ) - (b : ℤ)) [ZMOD (M : ℤ)] :=
        (Int.ModEq.refl _).add ((Int.modEq_zero_iff_dvd.2 dvd_rfl).sub (int_mod_modEq b))
    _ = (a : ℤ) - b := by ring

lemma newton_modEq_int (a x : ℕ) :
    ((newton a x : ℕ) : ℤ) ≡ (x : ℤ) * (2 - a * x) [ZMOD (M : ℤ)] := by
  unfold newton
  calc ((wmul x (wsub 2 (wmul a x)) : ℕ) : ℤ)
      ≡ (x : ℤ) * ((wsub 2 (wmul a x) : ℕ) : ℤ) [ZMOD (M : ℤ)] := wmul_modEq_int _ _
    _ ≡ (x : ℤ) * ((2 : ℤ) - ((wmul a x : ℕ) : ℤ)) [ZMOD (M : ℤ)] :=
        ((wsub_modEq_int 2 (wmul a x)).mul_left _)
    _ ≡ (x : ℤ) * ((2 : ℤ) - (a : ℤ) * x) [ZMOD (M : ℤ)] :=
        (((Int.ModEq.refl 2).sub (wmul_modEq_int a x)).mul_left _)

lemma M_int : ((M : ℕ) : ℤ) = 2 ^ 64 := by norm_num [M]

/-- One Newton step at least doubles the number of correct low bits of the
inverse, up to the word size. -/
lemma newton_dvd {a x : ℕ} {k : ℕ} (h : ((2 : ℤ) ^ k) ∣ ((a : ℤ) * x - 1)) :
    ((2 : ℤ) ^ min (2 * k) 64) ∣ ((a : ℤ) * (newton a x) - 1) := by
  have hsq : ((2 : ℤ) ^ (2 * k)) ∣ ((a : ℤ) * x - 1) ^ 2 := by
    have := pow_dvd_pow_of_dvd h 2
    rwa [← pow_mul, mul_comm k 2] at this
  have h1 : ((2 : ℤ) ^ min (2 * k) 64) ∣ ((a : ℤ) * x - 1) ^ 2 :=
    dvd_trans (pow_dvd_pow 2 (min_le_left _ _)) hsq
  have h2 : ((2 : ℤ) ^ min (2 * k) 64) ∣ ((M : ℕ) : ℤ) := by
    rw [M_int]
    exact pow_dvd_pow 2 (min_le_right _ _)
  have h3 : ((M : ℕ) : ℤ) ∣ ((x : ℤ) * (2 - a * x) - (newton a x : ℕ)) :=
    (newton_modEq_int a x).dvd
  have h4 : ((2 : ℤ) ^ min (2 * k) 64) ∣
      ((a : ℤ) * ((x : ℤ) * (2 - a * x) - (newton a x : ℕ))) :=
    dvd_mul_of_dvd_right (dvd_trans h2 h3) _
  have key : (a : ℤ) * (newton a x : ℕ) - 1 =
      (-(((a : ℤ) * x - 1) ^ 2)) - (a : ℤ) * ((x : ℤ) * (2 - a * x) - (newton a x : ℕ)) := by
    ring
  rw [key]
  exact dvd_sub (dvd_neg.mpr h1) h4

/-- The seed `a * 3 XOR 2` is a modular inverse of odd `a` modulo `2 ^ 5`. -/
lemma seed_mod32 {a : ℕ} (ha : a % 2 = 1) :
    (a * (wmul a 3 ^^^ 2)) % 32 = 1 := by
  have h32M : (32 : ℕ) ∣ M := by decide
  have hx0 : (wmul a 3 ^^^ 2) % 32 = ((a % 32 * 3) % 32) ^^^ 2 := by
    have : (wmul a 3 ^^^ 2) % 2 ^ 5 = wmul a 3 % 2 ^ 5 ^^^ 2 % 2 ^ 5 :=
      xor_mod_two_pow _ _ 5
    unfold wmul at this ⊢
    rw [show (2 : ℕ) ^ 5 = 32 from rfl] at this
    rw [this, Nat.mod_mod_of_dvd _ h32M, Nat.mul_mod a 3 32]
  rw [Nat.mul_mod, hx0]
  have hr : a % 32 < 32 := Nat.mod_lt _ (by norm_num)
  have hodd : a % 32 % 2 = 1 := by
    rw [Nat.mod_mod_of_dvd _ (by norm_num : (2 : ℕ) ∣ 32)]
    exact ha
  revert hr hodd
  generalize a % 32 = r
  revert r
  decide

/-- The full Newton chain inverts any odd `a` modulo `2 ^ 64`. -/
lemma chain_correct {a : ℕ} (ha : a % 2 = 1) : wmul a (modinv_chain a) = 1 := by
  have h0 : ((2 : ℤ) ^ 5) ∣ ((a : ℤ) * ((wmul a 3 ^^^ 2 : ℕ) : ℤ) - 1) := by
    have h1 : (a : ℤ) * ((wmul a 3 ^^^ 2 : ℕ) : ℤ) % 32 = 1 := by
      exact_mod_cast congrArg (fun n : ℕ => (n : ℤ)) (seed_mod32 ha)
    rw [show ((2 : ℤ) ^ 5) = 32 from by norm_num]
    exact Int.dvd_sub_of_emod_eq h1
  have h1 := newton_dvd h0
  rw [show min (2 * 5) 64 = 10 from by norm_num] at h1
  have h2 := newton_dvd h1
  rw [show min (2 * 10) 64 = 20 from by norm_num] at h2
  have h3 := newton_dvd h2
  rw [show min (2 * 20) 64 = 40 from by norm_num] at h3
  have h4 := newton_dvd h3
  rw [show min (2 * 40) 64 = 64 from by norm_num] at h4
  have key : ∀ n : ℕ, (18446744073709551616 : ℤ) ∣ ((n : ℕ) : ℤ) - 1 → n % M = 1 := by
    intro n hn
    rw [show M = 18446744073709551616 from by decide]
    omega
  unfold wmul modinv_chain
  apply key
  rw [show ((a * newton a (newton a (newton a (newton a (wmul a 3 ^^^ 2)))) : ℕ) : ℤ)
        = (a : ℤ) * ((newton a (newton a (newton a (newton a (wmul a 3 ^^^ 2)))) : ℕ) : ℤ)
      from by push_cast; ring]
  rw [show (18446744073709551616 : ℤ) = 2 ^ 64 from by norm_num]
  exact h4

/-- For every input `modinverse` succeeds (its assertion never fires) and
returns the Newton chain on the odd-forced argument. -/
lemma modinverse_eq_some (a0 : ℕ) :
    modinverse a0 = some (modinv_chain (a0 ||| 1)) := by
  unfold modinverse
  simp [chain_correct (or_one_mod_two a0)]

lemma chain_odd {a : ℕ} (ha : a % 2 = 1) : modinv_chain a % 2 = 1 := by
  have h := chain_correct ha
  unfold wmul at h
  have h2 : a * modinv_chain a % M % 2 = 1 := by rw [h]
  rw [Nat.mod_mod_of_dvd _ (by decide : (2 : ℕ) ∣ M), Nat.mul_mod, ha] at h2
  omega

lemma wneg_odd {x : ℕ} (hx : x % 2 = 1) (hlt : x < M) : wneg x % 2 = 1 := by
  unfold wneg
  rw [Nat.mod_eq_of_lt hlt]
  rw [show M = 18446744073709551616 from by decide] at *
  omega

/-- The de-tagged scale/unscale pair of any derived quadruple multiplies to
`-1` in `ZMod M`. -/
lemma s_mul_u (s0 : ℕ) :
    ((s0 ||| 1 : ℕ) : ZMod M) * ((wneg (modinv_chain (s0 ||| 1)) : ℕ) : ZMod M) = -1 := by
  rw [zc_wneg]
  have h := congrArg (fun n : ℕ => (n : ZMod M)) (chain_correct (or_one_mod_two s0))
  simp only at h
  rw [zc_wmul] at h
  push_cast at h
  rw [mul_neg, h]

/-- Core algebraic fact: if `s * u = -1` and `o = u * uo - WANTED_SUM`
(mod `2 ^ 64`), then the checking transform applied to the vouching
transform of `x` yields `WANTED_SUM` for every `x`. -/
lemma check_core (s u o uo x : ℕ)
    (hsu : (s : ZMod M) * (u : ZMod M) = -1)
    (ho : (o : ZMod M) = (u : ZMod M) * uo - ((WANTED_SUM : ℕ) : ZMod M)) :
    wadd (wmul (wadd (wmul (wadd x o) s) uo) u) x = WANTED_SUM := by
  apply eq_of_zmodCast_eq (wadd_lt _ _) WANTED_SUM_lt
  rw [zc_wadd, zc_wmul, zc_wadd, zc_wmul, zc_wadd]
  have expand : (((x : ZMod M) + o) * s + uo) * u + x
      = ((s : ZMod M) * u) * (x + o) + (u : ZMod M) * uo + x := by ring
  rw [expand, hsu, ho]
  ring

/-- Checking any voucher produced with the derived parameters succeeds. -/
lemma derived_check (s0 uo x : ℕ) :
    check (derivedQuad s0 uo).2.2.1 (derivedQuad s0 uo).2.2.2 x
      (wmul (wadd x (derivedQuad s0 uo).1) ((derivedQuad s0 uo).2.1 ^^^ VOUCHING_TAG))
      = true := by
  show check uo (wneg (modinv_chain (s0 ||| 1)) ^^^ CHECKING_TAG) x
      (wmul (wadd x (wsub (wmul (wneg (modinv_chain (s0 ||| 1))) uo) WANTED_SUM))
        (((s0 ||| 1) ^^^ VOUCHING_TAG) ^^^ VOUCHING_TAG)) = true
  unfold check
  rw [xor_cancel_r, xor_cancel_r, beq_iff_eq]
  apply check_core _ _ _ _ _ (s_mul_u s0)
  rw [zc_wsub, zc_wmul]

/-- `vouch` with the derived parameters never trips its assertion and
returns the plain affine transform of the value. -/
lemma derived_vouch (s0 uo x : ℕ) :
    vouch (derivedQuad s0 uo).1 (derivedQuad s0 uo).2.1
      ((derivedQuad s0 uo).2.2.1, (derivedQuad s0 uo).2.2.2) x
    = some (wmul (wadd x (derivedQuad s0 uo).1)
        ((derivedQuad s0 uo).2.1 ^^^ VOUCHING_TAG)) := by
  unfold vouch
  simp only [derived_check s0 uo x, if_true]

/-- The self-check of `derive_parameters` always passes. -/
lemma derived_cpod (s0 uo : ℕ) :
    check_parameters_or_die (derivedQuad s0 uo).1 (derivedQuad s0 uo).2.1
      ((derivedQuad s0 uo).2.2.1, (derivedQuad s0 uo).2.2.2) = true := by
  unfold check_parameters_or_die
  rw [derived_vouch s0 uo 0, derived_vouch s0 uo 1, derived_vouch s0 uo 2,
    derived_vouch s0 uo 0x110d2ae90b38f555]
  rfl

/-- `derive_parameters` always succeeds and returns `derivedQuad`. -/
lemma derive_parameters_eq (s0 uo : ℕ) :
    derive_parameters s0 uo = some (derivedQuad s0 uo) := by
  unfold derive_parameters
  simp only [modinverse_eq_some, or_one_idem]
  rw [if_pos]
  · rfl
  · exact derived_cpod s0 uo

lemma modinv_chain_lt (a : ℕ) : modinv_chain a < M := by
  unfold modinv_chain newton
  exact wmul_lt _ _

lemma vouch_isSome_iff (o s : ℕ) (c : ℕ × ℕ) (x : ℕ) :
    (vouch o s c x).isSome = check c.1 c.2 x (wmul (wadd x o) (s ^^^ VOUCHING_TAG)) := by
  unfold vouch
  cases hc : check c.1 c.2 x (wmul (wadd x o) (s ^^^ VOUCHING_TAG)) <;> simp [hc]

lemma CHECKING_TAG_mod_two : CHECKING_TAG % 2 = 1 := by decide

lemma VOUCHING_TAG_mod_two : VOUCHING_TAG % 2 = 0 := by decide

lemma xor_mod_two (x y : ℕ) : (x ^^^ y) % 2 = x % 2 ^^^ y % 2 := by
  have h := xor_mod_two_pow x y 1
  rwa [pow_one] at h

/-- With odd de-tagged scales, the sample checks at `0` and `1` cannot both
succeed after the vouching and checking roles are swapped: the effective
multipliers are both even, so the composed affine map has slope `≢ -1`. -/
lemma both_checks_impossible {s u : ℕ} (o uo : ℕ) (hs : s % 2 = 1) (hu : u % 2 = 1)
    (h0 : check o (s ^^^ VOUCHING_TAG) 0
      (wmul (wadd 0 uo) ((u ^^^ CHECKING_TAG) ^^^ VOUCHING_TAG)) = true)
    (h1 : check o (s ^^^ VOUCHING_TAG) 1
      (wmul (wadd 1 uo) ((u ^^^ CHECKING_TAG) ^^^ VOUCHING_TAG)) = true) : False := by
  unfold check at h0 h1
  rw [beq_iff_eq] at h0 h1
  have z0 := congrArg (fun n : ℕ => (n : ZMod M)) h0
  have z1 := congrArg (fun n : ℕ => (n : ZMod M)) h1
  simp only [zc_wadd, zc_wmul] at z0 z1
  push_cast at z0 z1
  set A : ℕ := (u ^^^ CHECKING_TAG) ^^^ VOUCHING_TAG with hA
  set B : ℕ := (s ^^^ VOUCHING_TAG) ^^^ CHECKING_TAG with hB
  have key : (A : ZMod M) * (B : ZMod M) + 1 = 0 := by
    linear_combination z1 - z0
  have hA2 : A % 2 = 0 := by
    rw [hA, xor_mod_two, xor_mod_two, hu, CHECKING_TAG_mod_two, VOUCHING_TAG_mod_two]
    decide
  have hB2 : B % 2 = 0 := by
    rw [hB, xor_mod_two, xor_mod_two, hs, CHECKING_TAG_mod_two, VOUCHING_TAG_mod_two]
    decide
  have h2 := congrArg (ZMod.castHom (by decide : (2 : ℕ) ∣ M) (ZMod 2)) key
  simp only [map_add, map_mul, map_one, map_zero, map_natCast] at h2
  rw [← ZMod.natCast_mod A 2, ← ZMod.natCast_mod B 2, hA2, hB2] at h2
  norm_num at h2

/-- Swapping the vouching and checking fields of any derived quadruple
(without re-tagging) always fails the four-point self-check. -/
lemma swapped_core {s u : ℕ} (o uo : ℕ) (hs : s % 2 = 1) (hu : u % 2 = 1) :
    check_parameters_or_die uo (u ^^^ CHECKING_TAG) (o, s ^^^ VOUCHING_TAG) = false := by
  unfold check_parameters_or_die
  rw [vouch_isSome_iff, vouch_isSome_iff, vouch_isSome_iff, vouch_isSome_iff]
  cases hc0 : check (o, s ^^^ VOUCHING_TAG).1 (o, s ^^^ VOUCHING_TAG).2 0
      (wmul (wadd 0 uo) ((u ^^^ CHECKING_TAG) ^^^ VOUCHING_TAG)) with
  | false => simp [hc0]
  | true =>
    cases hc1 : check (o, s ^^^ VOUCHING_TAG).1 (o, s ^^^ VOUCHING_TAG).2 1
        (wmul (wadd 1 uo) ((u ^^^ CHECKING_TAG) ^^^ VOUCHING_TAG)) with
    | false => simp [hc1]
    | true => exact (both_checks_impossible o uo hs hu hc0 hc1).elim

/-- The de-tagged checking multiplier of a derived quadruple is odd. -/
lemma derived_u_odd (s0 : ℕ) : wneg (modinv_chain (s0 ||| 1)) % 2 = 1 :=
  wneg_odd (chain_odd (or_one_mod_two s0)) (modinv_chain_lt _)

/-- C1: for every pair of seed inputs given to `derive_parameters` and every
value `x`, derivation succeeds, vouching for `x` with the derived parameters
succeeds, and checking the resulting voucher against `x` with the derived
checking parameters returns `true`. -/
theorem C1_vouch_check_roundtrip (s0 uo x : ℕ) :
    derive_parameters s0 uo = some (derivedQuad s0 uo) ∧
    ∃ v, vouch (derivedQuad s0 uo).1 (derivedQuad s0 uo).2.1
        ((derivedQuad s0 uo).2.2.1, (derivedQuad s0 uo).2.2.2) x = some v ∧
      check (derivedQuad s0 uo).2.2.1 (derivedQuad s0 uo).2.2.2 x v = true :=
  ⟨derive_parameters_eq s0 uo,
    wmul (wadd x (derivedQuad s0 uo).1) ((derivedQuad s0 uo).2.1 ^^^ VOUCHING_TAG),
    derived_vouch s0 uo x, derived_check s0 uo x⟩

/-- C2: for every odd `a`, `modinverse a` succeeds (its internal assertion
`a * x == 1` never fires), the returned value is computed by exactly four
Newton iterations from the seed `a * 3 XOR 2`, and it is a modular inverse
of `a`: `a * x ≡ 1 (mod 2 ^ 64)`. -/
theorem C2_modinverse_inverts (a : ℕ) (ha : a % 2 = 1) :
    modinverse a = some (newton a (newton a (newton a (newton a (wmul a 3 ^^^ 2))))) ∧
    wmul a (newton a (newton a (newton a (newton a (wmul a 3 ^^^ 2))))) = 1 := by
  have h1 : a ||| 1 = a := or_one_of_odd ha
  constructor
  · rw [modinverse_eq_some, h1]
    rfl
  · exact chain_correct ha

/-- Witness for C2 at the concrete odd input `a = 3`. -/
theorem C2_witness :
    (3 : ℕ) % 2 = 1 ∧
    (modinverse 3 = some (newton 3 (newton 3 (newton 3 (newton 3 (wmul 3 3 ^^^ 2))))) ∧
      wmul 3 (newton 3 (newton 3 (newton 3 (newton 3 (wmul 3 3 ^^^ 2))))) = 1) :=
  ⟨by decide, C2_modinverse_inverts 3 (by decide)⟩

/-- C3: for every quadruple produced by `derive_parameters` (which always
succeeds and returns `derivedQuad`) and every value, the internal assertion
of `vouch` never fails and `vouch` returns
`(value + offset) * (scale_tagged XOR VOUCHING_TAG)` with wrapping add and
wrapping multiply. -/
theorem C3_vouch_total_on_derived (s0 uo x : ℕ) :
    derive_parameters s0 uo = some (derivedQuad s0 uo) ∧
    vouch (derivedQuad s0 uo).1 (derivedQuad s0 uo).2.1
        ((derivedQuad s0 uo).2.2.1, (derivedQuad s0 uo).2.2.2) x
      = some (wmul (wadd x (derivedQuad s0 uo).1)
          ((derivedQuad s0 uo).2.1 ^^^ VOUCHING_TAG)) :=
  ⟨derive_parameters_eq s0 uo, derived_vouch s0 uo x⟩

/-- C7 counterexample: for the derived quadruple with seeds
`(1, 13020151265475858602)`, swapping the vouching and checking fields and
re-XOR-ing both scale fields with `VOUCHING_TAG XOR CHECKING_TAG` makes all
four sample-point checks of `check_parameters_or_die` succeed, contradicting
the claim that at least one of them must fail. -/
theorem C7_counterexample :
    derive_parameters 1 13020151265475858602
      = some (0, 7453010330410905431, 13020151265475858602, 10993733730414794684) ∧
    check_parameters_or_die 13020151265475858602
      (10993733730414794684 ^^^ (VOUCHING_TAG ^^^ CHECKING_TAG))
      (0, 7453010330410905431 ^^^ (VOUCHING_TAG ^^^ CHECKING_TAG)) = true := by
  constructor
  · decide
  · decide

/-- C7 (amended): swapping the roles of the derived vouching and checking
fields without re-XOR-ing the scale tags makes the four-point invariant
self-check fail for every derived quadruple; with re-XOR-ing it fails for
the seed pair `(43, 123)` exercised by the repository's test (but not for
every seed pair, see `C7_counterexample`). -/
theorem C7_swapped_roles_fail :
    (∀ s0 uo : ℕ,
      check_parameters_or_die (derivedQuad s0 uo).2.2.1 (derivedQuad s0 uo).2.2.2
        ((derivedQuad s0 uo).1, (derivedQuad s0 uo).2.1) = false) ∧
    check_parameters_or_die (derivedQuad 43 123).2.2.1
      ((derivedQuad 43 123).2.2.2 ^^^ (VOUCHING_TAG ^^^ CHECKING_TAG))
      ((derivedQuad 43 123).1, (derivedQuad 43 123).2.1 ^^^ (VOUCHING_TAG ^^^ CHECKING_TAG))
      = false := by
  constructor
  · intro s0 uo
    show check_parameters_or_die uo
      (wneg (modinv_chain (s0 ||| 1)) ^^^ CHECKING_TAG)
      (wsub (wmul (wneg (modinv_chain (s0 ||| 1))) uo) WANTED_SUM,
        (s0 ||| 1) ^^^ VOUCHING_TAG) = false
    exact swapped_core _ uo (or_one_mod_two s0) (derived_u_odd s0)
  · decide

/-- C8: the literal regression vectors for `derive_parameters` at seeds
`(0, 0)` and `(1, 1)`. -/
theorem C8_regression_vectors :
    derive_parameters 0 0
      = some (wneg WANTED_SUM, VOUCHING_TAG ^^^ 1, 0, CHECKING_TAG ^^^ (M - 1)) ∧
    derive_parameters 1 1
      = some (13020151265475858601, 7453010330410905431, 1, 10993733730414794684) := by
  constructor
  · decide
  · decide

/-- C10: `derive_parameters` ignores the low bit of its scale seed, and
`modinverse` ignores the low bit of its argument. -/
theorem C10_low_bit_ignored (s0 uo a : ℕ) :
    derive_parameters s0 uo = derive_parameters (s0 ||| 1) uo ∧
    modinverse a = modinverse (a ||| 1) := by
  constructor
  · unfold derive_parameters
    rw [or_one_idem]
  · unfold modinverse
    rw [or_one_idem]

lemma update_some_iff (acc : Option ℕ) (bytes : List ℕ) (base idx v : ℕ) :
    update acc bytes base idx = some v ↔
      (base + idx < bytes.length ∧ ∃ a d, acc = some a ∧
        hex_digit (bytes.getD (base + idx) 0) = some d ∧
        v = a + d * 2 ^ (4 * (15 - idx))) := by
  unfold update
  rcases Nat.lt_or_ge (base + idx) bytes.length with hlt | hge
  · have hg : ¬ (bytes.length ≤ base ∨ bytes.length - base ≤ idx) := by omega
    rw [if_neg hg]
    cases acc with
    | none => simp
    | some a =>
      cases hd : hex_digit (bytes.getD (base + idx) 0) with
      | none => simp [hlt]
      | some d =>
        simp only [Option.some.injEq, hlt, true_and]
        constructor
        · intro h
          exact ⟨a, d, rfl, rfl, h.symm⟩
        · rintro ⟨a', d', ha, hd', hv⟩
          cases ha
          cases hd'
          exact hv.symm
  · have hg : (bytes.length ≤ base ∨ bytes.length - base ≤ idx) := by omega
    rw [if_pos hg]
    constructor
    · intro h
      cases h
    · rintro ⟨h, -⟩
      omega

lemma updates_some_iff (bytes : List ℕ) (base : ℕ) :
    ∀ n, 1 ≤ n → ∀ v, (updates bytes base n = some v ↔
      (base + n ≤ bytes.length ∧
        (∀ i < n, (hex_digit (bytes.getD (base + i) 0)).isSome) ∧
        v = hexVal bytes base n)) := by
  intro n
  induction n with
  | zero => omega
  | succ n ih =>
    intro _ v
    rcases Nat.eq_zero_or_pos n with h0 | hpos
    · subst h0
      show update (some 0) bytes base 0 = some v ↔ _
      rw [update_some_iff]
      constructor
      · rintro ⟨hlt, a, d, ha, hd, hv⟩
        cases ha
        refine ⟨by omega, ?_, ?_⟩
        · intro i hi
          have : i = 0 := by omega
          subst this
          rw [hd]
          rfl
        · rw [hv, hexVal, Finset.sum_range_one, hd]
          simp
      · rintro ⟨hlen, hhex, hval⟩
        have hsome := hhex 0 (by omega)
        obtain ⟨d, hd⟩ := Option.isSome_iff_exists.mp hsome
        refine ⟨by omega, 0, d, rfl, hd, ?_⟩
        rw [hval, hexVal, Finset.sum_range_one, hd]
        simp
    · show update (updates bytes base n) bytes base n = some v ↔ _
      rw [update_some_iff]
      constructor
      · rintro ⟨hlt, a, d, ha, hd, hv⟩
        obtain ⟨hlen, hhex, hval⟩ := (ih hpos a).mp ha
        refine ⟨by omega, ?_, ?_⟩
        · intro i hi
          rcases Nat.lt_or_ge i n with h | h
          · exact hhex i h
          · have : i = n := by omega
            subst this
            rw [hd]
            rfl
        · rw [hv, hval, hexVal, hexVal, Finset.sum_range_succ, hd]
          simp
      · rintro ⟨hlen, hhex, hval⟩
        have hsome := hhex n (by omega)
        obtain ⟨d, hd⟩ := Option.isSome_iff_exists.mp hsome
        refine ⟨by omega, hexVal bytes base n, d, ?_, hd, ?_⟩
        · exact (ih hpos _).mpr ⟨by omega, fun i hi => hhex i (by omega), rfl⟩
        · rw [hval, hexVal, hexVal, Finset.sum_range_succ, hd]
          simp

lemma parse_hex_some_iff (bytes : List ℕ) (base v : ℕ) :
    parse_hex bytes base = some v ↔
      (base + 16 ≤ bytes.length ∧
        (∀ i < 16, (hex_digit (bytes.getD (base + i) 0)).isSome) ∧
        v = hexVal bytes base 16) :=
  updates_some_iff bytes base 16 (by omega) v

lemma parse_hex_isSome_iff (bytes : List ℕ) (base : ℕ) :
    (parse_hex bytes base).isSome ↔
      (base + 16 ≤ bytes.length ∧
        (∀ i < 16, (hex_digit (bytes.getD (base + i) 0)).isSome)) := by
  rw [Option.isSome_iff_exists]
  constructor
  · rintro ⟨v, hv⟩
    have := (parse_hex_some_iff bytes base v).mp hv
    exact ⟨this.1, this.2.1⟩
  · rintro ⟨h1, h2⟩
    exact ⟨hexVal bytes base 16, (parse_hex_some_iff bytes base _).mpr ⟨h1, h2, rfl⟩⟩

lemma hex_digit_isSome_iff (b : ℕ) : (hex_digit b).isSome ↔ isHexByte b := by
  unfold hex_digit isHexByte
  split_ifs with h1 h2 h3 <;> simp_all

lemma hex_digit_val_eq {b : ℕ} (h : isHexByte b) :
    (hex_digit b).getD 0 = hexDigitVal b := by
  unfold hex_digit hexDigitVal
  unfold isHexByte at h
  split_ifs with h1 h2 h3
  · simp
  · simp
    omega
  · simp
    omega
  · omega

lemma hexVal_eq_bigEndian (bytes : List ℕ) (base : ℕ)
    (h : ∀ i < 16, isHexByte (bytes.getD (base + i) 0)) :
    hexVal bytes base 16 = bigEndianVal bytes base := by
  unfold hexVal bigEndianVal
  apply Finset.sum_congr rfl
  intro i hi
  rw [hex_digit_val_eq (h i (Finset.mem_range.mp hi)), pow_mul]
  norm_num

lemma parse_hex_char (bytes : List ℕ) (base v : ℕ) :
    parse_hex bytes base = some v ↔
      (base + 16 ≤ bytes.length ∧
        (∀ i < 16, isHexByte (bytes.getD (base + i) 0)) ∧
        v = bigEndianVal bytes base) := by
  rw [parse_hex_some_iff]
  constructor
  · rintro ⟨h1, h2, h3⟩
    have hh : ∀ i < 16, isHexByte (bytes.getD (base + i) 0) :=
      fun i hi => (hex_digit_isSome_iff _).mp (h2 i hi)
    exact ⟨h1, hh, by rw [h3, hexVal_eq_bigEndian bytes base hh]⟩
  · rintro ⟨h1, h2, h3⟩
    exact ⟨h1, fun i hi => (hex_digit_isSome_iff _).mpr (h2 i hi),
      by rw [h3, hexVal_eq_bigEndian bytes base h2]⟩

/-- C9: `parse_hex` (whose per-nibble accesses are all bounds-checked, so it
is total on any buffer and offset, never reading out of bounds) returns
`some v` exactly when the 16 bytes at `[base, base + 16)` exist and are hex
digits, and `v` is then their big-endian 16-nibble value. -/
theorem C9_parse_hex_characterised (bytes : List ℕ) (base v : ℕ) :
    parse_hex bytes base = some v ↔
      (base + 16 ≤ bytes.length ∧
        (∀ i < 16, isHexByte (bytes.getD (base + i) 0)) ∧
        v = bigEndianVal bytes base) :=
  parse_hex_char bytes base v

lemma parse_hex_some_of_hex (bytes : List ℕ) (base : ℕ)
    (hlen : base + 16 ≤ bytes.length)
    (h : ∀ i < 16, isHexByte (bytes.getD (base + i) 0)) :
    parse_hex bytes base = some (bigEndianVal bytes base) :=
  (parse_hex_char bytes base _).mpr ⟨hlen, h, rfl⟩

lemma hex_of_parse_hex_some (bytes : List ℕ) (base v : ℕ)
    (h : parse_hex bytes base = some v) :
    ∀ i < 16, isHexByte (bytes.getD (base + i) 0) :=
  ((parse_hex_char bytes base v).mp h).2.1

lemma check_parse_ok_iff (bytes : List ℕ) :
    (∃ p, check_parse_bytes bytes = Except.ok p) ↔ checkingWellFormed bytes := by
  unfold check_parse_bytes CHECK_REPRESENTATION_BYTE_COUNT
  by_cases h1 : bytes.length < 39
  · rw [if_pos h1]
    constructor
    · rintro ⟨p, hp⟩
      exact absurd hp (by simp)
    · rintro ⟨hlen, -⟩
      omega
  · rw [if_neg h1]
    by_cases h2 : bytes.length > 39
    · rw [if_pos h2]
      constructor
      · rintro ⟨p, hp⟩
        exact absurd hp (by simp)
      · rintro ⟨hlen, -⟩
        omega
    · rw [if_neg h2]
      have hlen : bytes.length = 39 := by omega
      by_cases h3 : bytes.getD 0 0 = 67 ∧ bytes.getD 1 0 = 72 ∧ bytes.getD 2 0 = 69 ∧
          bytes.getD 3 0 = 67 ∧ bytes.getD 4 0 = 75 ∧ bytes.getD 5 0 = 45
      · rw [if_neg (not_not_intro h3)]
        cases hp1 : parse_hex bytes 6 with
        | none =>
          constructor
          · rintro ⟨p, hp⟩
            exact absurd hp (by simp)
          · rintro ⟨-, -, -, hhex1, -⟩
            have := parse_hex_some_of_hex bytes 6 (by omega) hhex1
            rw [hp1] at this
            cases this
        | some uo =>
          dsimp only
          by_cases h4 : bytes.getD 22 0 = 45
          · rw [if_neg (not_not_intro h4)]
            cases hp2 : parse_hex bytes 23 with
            | none =>
              constructor
              · rintro ⟨p, hp⟩
                exact absurd hp (by simp)
              · rintro ⟨-, -, -, -, hhex2⟩
                have := parse_hex_some_of_hex bytes 23 (by omega) hhex2
                rw [hp2] at this
                cases this
            | some us =>
              dsimp only
              constructor
              · rintro -
                exact ⟨hlen, h3, h4,
                  hex_of_parse_hex_some bytes 6 uo hp1,
                  hex_of_parse_hex_some bytes 23 us hp2⟩
              · rintro -
                exact ⟨(uo, us), rfl⟩
          · rw [if_pos h4]
            constructor
            · rintro ⟨p, hp⟩
              exact absurd hp (by simp)
            · rintro ⟨-, -, hdash, -, -⟩
              exact absurd hdash h4
      · rw [if_pos h3]
        constructor
        · rintro ⟨p, hp⟩
          exact absurd hp (by simp)
        · rintro ⟨-, hpre, -, -, -⟩
          exact absurd hpre h3

lemma vouch_parse_ok_iff (bytes : List ℕ) :
    (∃ q, vouch_parse_bytes bytes = Except.ok q) ↔ vouchingWellFormed bytes := by
  unfold vouch_parse_bytes VOUCH_REPRESENTATION_BYTE_COUNT
  by_cases h1 : bytes.length < 73
  · rw [if_pos h1]
    constructor
    · rintro ⟨q, hq⟩
      exact absurd hq (by simp)
    · rintro ⟨hlen, -⟩
      omega
  · rw [if_neg h1]
    by_cases h2 : bytes.length > 73
    · rw [if_pos h2]
      constructor
      · rintro ⟨q, hq⟩
        exact absurd hq (by simp)
      · rintro ⟨hlen, -⟩
        omega
    · rw [if_neg h2]
      have hlen : bytes.length = 73 := by omega
      by_cases h3 : bytes.getD 0 0 = 86 ∧ bytes.getD 1 0 = 79 ∧ bytes.getD 2 0 = 85 ∧
          bytes.getD 3 0 = 67 ∧ bytes.getD 4 0 = 72 ∧ bytes.getD 5 0 = 45
      · rw [if_neg (not_not_intro h3)]
        cases hp1 : parse_hex bytes 6 with
        | none =>
          constructor
          · rintro ⟨q, hq⟩
            exact absurd hq (by simp)
          · rintro ⟨-, -, -, -, -, hhex1, -, -, -⟩
            have := parse_hex_some_of_hex bytes 6 (by omega) hhex1
            rw [hp1] at this
            cases this
        | some o =>
          dsimp only
          by_cases h4 : bytes.getD 22 0 = 45
          · rw [if_neg (not_not_intro h4)]
            cases hp2 : parse_hex bytes 23 with
            | none =>
              constructor
              · rintro ⟨q, hq⟩
                exact absurd hq (by simp)
              · rintro ⟨-, -, -, -, -, -, hhex2, -, -⟩
                have := parse_hex_some_of_hex bytes 23 (by omega) hhex2
                rw [hp2] at this
                cases this
            | some sc =>
              dsimp only
              by_cases h5 : bytes.getD 39 0 = 45
              · rw [if_neg (not_not_intro h5)]
                cases hp3 : parse_hex bytes 40 with
                | none =>
                  constructor
                  · rintro ⟨q, hq⟩
                    exact absurd hq (by simp)
                  · rintro ⟨-, -, -, -, -, -, -, hhex3, -⟩
                    have := parse_hex_some_of_hex bytes 40 (by omega) hhex3
                    rw [hp3] at this
                    cases this
                | some un =>
                  dsimp only
                  by_cases h6 : bytes.getD 56 0 = 45
                  · rw [if_neg (not_not_intro h6)]
                    cases hp4 : parse_hex bytes 57 with
                    | none =>
                      constructor
                      · rintro ⟨q, hq⟩
                        exact absurd hq (by simp)
                      · rintro ⟨-, -, -, -, -, -, -, -, hhex4⟩
                        have := parse_hex_some_of_hex bytes 57 (by omega) hhex4
                        rw [hp4] at this
                        cases this
                    | some usc =>
                      dsimp only
                      constructor
                      · rintro -
                        exact ⟨hlen, h3, h4, h5, h6,
                          hex_of_parse_hex_some bytes 6 o hp1,
                          hex_of_parse_hex_some bytes 23 sc hp2,
                          hex_of_parse_hex_some bytes 40 un hp3,
                          hex_of_parse_hex_some bytes 57 usc hp4⟩
                      · rintro -
                        exact ⟨(o, sc, un, usc), rfl⟩
                  · rw [if_pos h6]
                    constructor
                    · rintro ⟨q, hq⟩
                      exact absurd hq (by simp)
                    · rintro ⟨-, -, -, -, hdash, -, -, -, -⟩
                      exact absurd hdash h6
              · rw [if_pos h5]
                constructor
                · rintro ⟨q, hq⟩
                  exact absurd hq (by simp)
                · rintro ⟨-, -, -, hdash, -, -, -, -, -⟩
                  exact absurd hdash h5
          · rw [if_pos h4]
            constructor
            · rintro ⟨q, hq⟩
              exact absurd hq (by simp)
            · rintro ⟨-, -, hdash, -, -, -, -, -, -⟩
              exact absurd hdash h4
      · rw [if_pos h3]
        constructor
        · rintro ⟨q, hq⟩
          exact absurd hq (by simp)
        · rintro ⟨-, hpre, -, -, -, -, -, -, -⟩
          exact absurd hpre h3

lemma check_parse_too_few {bytes : List ℕ} (h : bytes.length < 39) :
    check_parse_bytes bytes
      = Except.error "Too few bytes in serialized raffle::CheckingParameters" := by
  unfold check_parse_bytes CHECK_REPRESENTATION_BYTE_COUNT
  rw [if_pos h]

lemma check_parse_too_many {bytes : List ℕ} (h : bytes.length > 39) :
    check_parse_bytes bytes
      = Except.error "Too many bytes in serialized raffle::CheckingParameters" := by
  unfold check_parse_bytes CHECK_REPRESENTATION_BYTE_COUNT
  rw [if_neg (by omega), if_pos h]

lemma vouch_parse_too_few {bytes : List ℕ} (h : bytes.length < 73) :
    vouch_parse_bytes bytes
      = Except.error "Too few bytes in serialized raffle::VouchingParameters" := by
  unfold vouch_parse_bytes VOUCH_REPRESENTATION_BYTE_COUNT
  rw [if_pos h]

lemma vouch_parse_too_many {bytes : List ℕ} (h : bytes.length > 73) :
    vouch_parse_bytes bytes
      = Except.error "Too many bytes in serialized raffle::VouchingParameters" := by
  unfold vouch_parse_bytes VOUCH_REPRESENTATION_BYTE_COUNT
  rw [if_neg (by omega), if_pos h]

/-- C5: each parser accepts exactly the byte strings of its fixed-width
format (39-byte `CHECK-…`, 73-byte `VOUCH-…`), rejects everything else with
a recoverable error value, distinguishes too-short from too-long input, and
satisfies the claim's concrete accept/reject examples. -/
theorem C5_parsing_contract (bytes : List ℕ) :
    ((∃ p, check_parse_bytes bytes = Except.ok p) ↔ checkingWellFormed bytes) ∧
    ((∃ q, vouch_parse_bytes bytes = Except.ok q) ↔ vouchingWellFormed bytes) ∧
    (bytes.length < 39 → check_parse_bytes bytes
      = Except.error "Too few bytes in serialized raffle::CheckingParameters") ∧
    (bytes.length > 39 → check_parse_bytes bytes
      = Except.error "Too many bytes in serialized raffle::CheckingParameters") ∧
    (bytes.length < 73 → vouch_parse_bytes bytes
      = Except.error "Too few bytes in serialized raffle::VouchingParameters") ∧
    (bytes.length > 73 → vouch_parse_bytes bytes
      = Except.error "Too many bytes in serialized raffle::VouchingParameters") ∧
    ("Too few bytes in serialized raffle::CheckingParameters"
      ≠ "Too many bytes in serialized raffle::CheckingParameters") ∧
    ("Too few bytes in serialized raffle::VouchingParameters"
      ≠ "Too many bytes in serialized raffle::VouchingParameters") ∧
    check_parse_bytes (strBytes "CHECK-00000000000004d2-000000000000162e")
      = Except.ok (1234, 5678) ∧
    check_parse_bytes (strBytes "CHECK-00000000000004d2-000000000000162e-suffix")
      = Except.error "Too many bytes in serialized raffle::CheckingParameters" ∧
    check_parse_bytes (strBytes "CHECK-0000000000004d2-000000000000162e")
      = Except.error "Too few bytes in serialized raffle::CheckingParameters" ∧
    check_parse_bytes (strBytes "CHECK-00000000000004d2-00000000000162e")
      = Except.error "Too few bytes in serialized raffle::CheckingParameters" :=
  ⟨check_parse_ok_iff bytes, vouch_parse_ok_iff bytes,
    fun h => check_parse_too_few h, fun h => check_parse_too_many h,
    fun h => vouch_parse_too_few h, fun h => vouch_parse_too_many h,
    by decide, by decide, by decide, by decide, by decide, by decide⟩

/-- Witness for C5's conditional conjuncts at concrete too-short and
too-long inputs. -/
theorem C5_witness :
    check_parse_bytes []
      = Except.error "Too few bytes in serialized raffle::CheckingParameters" ∧
    check_parse_bytes (List.replicate 40 48)
      = Except.error "Too many bytes in serialized raffle::CheckingParameters" ∧
    vouch_parse_bytes []
      = Except.error "Too few bytes in serialized raffle::VouchingParameters" ∧
    vouch_parse_bytes (List.replicate 74 48)
      = Except.error "Too many bytes in serialized raffle::VouchingParameters" :=
  ⟨(C5_parsing_contract []).2.2.1 (by decide),
    (C5_parsing_contract (List.replicate 40 48)).2.2.2.1 (by decide),
    (C5_parsing_contract []).2.2.2.2.1 (by decide),
    (C5_parsing_contract (List.replicate 74 48)).2.2.2.2.2.1 (by decide)⟩

/-- Bool equality test versus propositional decision. -/
lemma beq_eq_decide (a b : ℕ) : (a == b) = decide (a = b) := by
  by_cases h : a = b <;> simp [h]

/-- C4: `check` is total and pure by construction (it is a Lean function
into `Bool` with no partiality), and on every input it returns exactly the
wrapped affine comparison described by the spec. -/
theorem C4_check_is_wrapped_formula (unoffset unscale expected voucher : ℕ) :
    check unoffset unscale expected voucher
      = check_spec unoffset unscale expected voucher := by
  unfold check check_spec wadd wmul
  rw [beq_eq_decide]
  rfl

lemma toHex16_length (v : ℕ) : (toHex16 v).length = 16 := by
  simp [toHex16]

lemma toHex16_getD (v i : ℕ) (h : i < 16) :
    (toHex16 v).getD i 0 = toHexDigit (v / 16 ^ (15 - i) % 16) := by
  unfold toHex16
  rw [List.getD_eq_getElem?_getD, List.getElem?_map, List.getElem?_range h]
  rfl

lemma isHexByte_toHexDigit (n : ℕ) (h : n < 16) : isHexByte (toHexDigit n) := by
  unfold isHexByte toHexDigit
  split_ifs <;> omega

lemma hexDigitVal_toHexDigit (n : ℕ) (h : n < 16) : hexDigitVal (toHexDigit n) = n := by
  unfold hexDigitVal toHexDigit
  split_ifs <;> omega

/-- Reassembling the 16 big-endian nibbles of a value below `16 ^ 16`
recovers the value. -/
lemma digit_sum (v : ℕ) (hv : v < 16 ^ 16) :
    ∀ k, k ≤ 16 →
      ∑ i ∈ Finset.range k, v / 16 ^ (15 - i) % 16 * 16 ^ (15 - i)
        = v / 16 ^ (16 - k) * 16 ^ (16 - k) := by
  intro k
  induction k with
  | zero =>
    intro _
    rw [Finset.sum_range_zero, Nat.sub_zero, Nat.div_eq_of_lt hv, zero_mul]
  | succ k ih =>
    intro hk
    rw [Finset.sum_range_succ, ih (by omega)]
    have he1 : 16 - k = (15 - k) + 1 := by omega
    have he2 : 16 - (k + 1) = 15 - k := by omega
    rw [he1, he2]
    have hd : v / 16 ^ (15 - k) / 16 = v / 16 ^ ((15 - k) + 1) := by
      rw [Nat.div_div_eq_div_mul, ← pow_succ]
    have key := Nat.div_add_mod (v / 16 ^ (15 - k)) 16
    calc v / 16 ^ ((15 - k) + 1) * 16 ^ ((15 - k) + 1)
          + v / 16 ^ (15 - k) % 16 * 16 ^ (15 - k)
        = (16 * (v / 16 ^ (15 - k) / 16) + v / 16 ^ (15 - k) % 16) * 16 ^ (15 - k) := by
          rw [hd, pow_succ]
          ring
      _ = v / 16 ^ (15 - k) * 16 ^ (15 - k) := by rw [key]

/-- A hex field embedded at offset `pre.length` parses back to its value. -/
lemma parse_hex_embedded (pre post : List ℕ) (base v : ℕ)
    (hbase : pre.length = base) (hv : v < 2 ^ 64) :
    parse_hex (pre ++ (toHex16 v ++ post)) base = some v := by
  subst hbase
  have hget : ∀ i, i < 16 →
      (pre ++ (toHex16 v ++ post)).getD (pre.length + i) 0 = (toHex16 v).getD i 0 := by
    intro i hi
    rw [List.getD_append_right pre _ _ _ (by omega)]
    rw [show pre.length + i - pre.length = i from by omega]
    rw [List.getD_append _ _ _ _ (by rw [toHex16_length]; omega)]
  apply (parse_hex_char _ _ _).mpr
  refine ⟨?_, ?_, ?_⟩
  · simp only [List.length_append, toHex16_length]
    omega
  · intro i hi
    rw [hget i hi, toHex16_getD v i hi]
    exact isHexByte_toHexDigit _ (Nat.mod_lt _ (by norm_num))
  · unfold bigEndianVal
    rw [Finset.sum_congr rfl (fun i hi => by
      rw [hget i (Finset.mem_range.mp hi), toHex16_getD v i (Finset.mem_range.mp hi),
        hexDigitVal_toHexDigit _ (Nat.mod_lt _ (by norm_num))])]
    have h16 : v < 16 ^ 16 := by
      have : (16 : ℕ) ^ 16 = 2 ^ 64 := by norm_num
      omega
    rw [digit_sum v h16 16 le_rfl]
    simp

lemma serializeChecking_dash (uo us : ℕ) : (serializeChecking uo us).getD 22 0 = 45 := by
  unfold serializeChecking
  rw [List.getD_append _ _ _ _ (by simp [toHex16_length])]
  rw [List.getD_append_right _ _ _ _ (by simp [toHex16_length])]
  simp [toHex16_length]

lemma serializeChecking_parse (uo us : ℕ) (h1 : uo < 2 ^ 64) (h2 : us < 2 ^ 64) :
    check_parse_bytes (serializeChecking uo us) = Except.ok (uo, us) := by
  have hlen : (serializeChecking uo us).length = 39 := by
    simp [serializeChecking, toHex16_length]
  have hp1 : parse_hex (serializeChecking uo us) 6 = some uo :=
    parse_hex_embedded [67, 72, 69, 67, 75, 45] _ 6 uo (by norm_num) h1
  have hL2 : serializeChecking uo us
      = ([67, 72, 69, 67, 75, 45] ++ toHex16 uo ++ [45]) ++ (toHex16 us ++ []) := by
    unfold serializeChecking
    simp [List.append_assoc]
  have hp2 : parse_hex (serializeChecking uo us) 23 = some us := by
    rw [hL2]
    exact parse_hex_embedded _ [] 23 us (by simp [toHex16_length]) h2
  have hpre : (serializeChecking uo us).getD 0 0 = 67 ∧
      (serializeChecking uo us).getD 1 0 = 72 ∧
      (serializeChecking uo us).getD 2 0 = 69 ∧
      (serializeChecking uo us).getD 3 0 = 67 ∧
      (serializeChecking uo us).getD 4 0 = 75 ∧
      (serializeChecking uo us).getD 5 0 = 45 :=
    ⟨rfl, rfl, rfl, rfl, rfl, rfl⟩
  unfold check_parse_bytes CHECK_REPRESENTATION_BYTE_COUNT
  rw [if_neg (by omega), if_neg (by omega), if_neg (not_not_intro hpre), hp1]
  dsimp only
  rw [if_neg (not_not_intro (serializeChecking_dash uo us)), hp2]

lemma serializeVouching_dash22 (o sc un usc : ℕ) :
    (serializeVouching o sc un usc).getD 22 0 = 45 := by
  unfold serializeVouching
  rw [List.getD_append _ _ _ _ (by simp [toHex16_length])]
  rw [List.getD_append _ _ _ _ (by simp [toHex16_length])]
  rw [List.getD_append _ _ _ _ (by simp [toHex16_length])]
  rw [List.getD_append _ _ _ _ (by simp [toHex16_length])]
  rw [List.getD_append _ _ _ _ (by simp [toHex16_length])]
  rw [List.getD_append_right _ _ _ _ (by simp [toHex16_length])]
  simp [toHex16_length]

lemma serializeVouching_dash39 (o sc un usc : ℕ) :
    (serializeVouching o sc un usc).getD 39 0 = 45 := by
  unfold serializeVouching
  rw [List.getD_append _ _ _ _ (by simp [toHex16_length])]
  rw [List.getD_append _ _ _ _ (by simp [toHex16_length])]
  rw [List.getD_append _ _ _ _ (by simp [toHex16_length])]
  rw [List.getD_append_right _ _ _ _ (by simp [toHex16_length])]
  simp [toHex16_length]

lemma serializeVouching_dash56 (o sc un usc : ℕ) :
    (serializeVouching o sc un usc).getD 56 0 = 45 := by
  unfold serializeVouching
  rw [List.getD_append _ _ _ _ (by simp [toHex16_length])]
  rw [List.getD_append_right _ _ _ _ (by simp [toHex16_length])]
  simp [toHex16_length]

lemma serializeVouching_parse (o sc un usc : ℕ) (h1 : o < 2 ^ 64) (h2 : sc < 2 ^ 64)
    (h3 : un < 2 ^ 64) (h4 : usc < 2 ^ 64) :
    vouch_parse_bytes (serializeVouching o sc un usc) = Except.ok (o, sc, un, usc) := by
  have hlen : (serializeVouching o sc un usc).length = 73 := by
    simp [serializeVouching, toHex16_length]
  have hp1 : parse_hex (serializeVouching o sc un usc) 6 = some o :=
    parse_hex_embedded [86, 79, 85, 67, 72, 45] _ 6 o (by norm_num) h1
  have hL2 : serializeVouching o sc un usc
      = ([86, 79, 85, 67, 72, 45] ++ toHex16 o ++ [45])
        ++ (toHex16 sc ++ ([45] ++ (toHex16 un ++ ([45] ++ toHex16 usc)))) := by
    unfold serializeVouching
    simp [List.append_assoc]
  have hp2 : parse_hex (serializeVouching o sc un usc) 23 = some sc := by
    rw [hL2]
    exact parse_hex_embedded _ _ 23 sc (by simp [toHex16_length]) h2
  have hL3 : serializeVouching o sc un usc
      = ([86, 79, 85, 67, 72, 45] ++ toHex16 o ++ [45] ++ toHex16 sc ++ [45])
        ++ (toHex16 un ++ ([45] ++ toHex16 usc)) := by
    unfold serializeVouching
    simp [List.append_assoc]
  have hp3 : parse_hex (serializeVouching o sc un usc) 40 = some un := by
    rw [hL3]
    exact parse_hex_embedded _ _ 40 un (by simp [toHex16_length]) h3
  have hL4 : serializeVouching o sc un usc
      = ([86, 79, 85, 67, 72, 45] ++ toHex16 o ++ [45] ++ toHex16 sc ++ [45]
          ++ toHex16 un ++ [45]) ++ (toHex16 usc ++ []) := by
    unfold serializeVouching
    simp [List.append_assoc]
  have hp4 : parse_hex (serializeVouching o sc un usc) 57 = some usc := by
    rw [hL4]
    exact parse_hex_embedded _ [] 57 usc (by simp [toHex16_length]) h4
  have hpre : (serializeVouching o sc un usc).getD 0 0 = 86 ∧
      (serializeVouching o sc un usc).getD 1 0 = 79 ∧
      (serializeVouching o sc un usc).getD 2 0 = 85 ∧
      (serializeVouching o sc un usc).getD 3 0 = 67 ∧
      (serializeVouching o sc un usc).getD 4 0 = 72 ∧
      (serializeVouching o sc un usc).getD 5 0 = 45 :=
    ⟨rfl, rfl, rfl, rfl, rfl, rfl⟩
  unfold vouch_parse_bytes VOUCH_REPRESENTATION_BYTE_COUNT
  rw [if_neg (by omega), if_neg (by omega), if_neg (not_not_intro hpre), hp1]
  dsimp only
  rw [if_neg (not_not_intro (serializeVouching_dash22 o sc un usc)), hp2]
  dsimp only
  rw [if_neg (not_not_intro (serializeVouching_dash39 o sc un usc)), hp3]
  dsimp only
  rw [if_neg (not_not_intro (serializeVouching_dash56 o sc un usc)), hp4]

/-- C6: serializing either parameter set (fixed prefix, separators, and
exactly 16 zero-padded hex digits per 64-bit field) and parsing the result
returns the original values. -/
theorem C6_serialize_parse_roundtrip (uo us o sc un usc : ℕ)
    (h1 : uo < 2 ^ 64) (h2 : us < 2 ^ 64) (h3 : o < 2 ^ 64) (h4 : sc < 2 ^ 64)
    (h5 : un < 2 ^ 64) (h6 : usc < 2 ^ 64) :
    check_parse_bytes (serializeChecking uo us) = Except.ok (uo, us) ∧
    vouch_parse_bytes (serializeVouching o sc un usc) = Except.ok (o, sc, un, usc) :=
  ⟨serializeChecking_parse uo us h1 h2, serializeVouching_parse o sc un usc h3 h4 h5 h6⟩

/-- Witness for C6 at concrete field values. -/
theorem C6_witness :
    check_parse_bytes (serializeChecking 1234 5678) = Except.ok (1234, 5678) ∧
    vouch_parse_bytes (serializeVouching 1 2 3 18446744073709551615)
      = Except.ok (1, 2, 3, 18446744073709551615) :=
  C6_serialize_parse_roundtrip 1234 5678 1 2 3 18446744073709551615
    (by norm_num) (by norm_num) (by norm_num) (by norm_num) (by norm_num) (by norm_num)

end Raffle
